import Mathlib

/-!
Verification of the mcwrap session daemon (Th0rgal/mcpanel, `mcwrap-rs`).

Part 1 embeds the log sanitizer `filter_for_log` from `src/pty.rs` as a
function on byte lists (bytes are `Nat`, matching the `u8` values used by the
source).  Part 2 embeds the session-lifecycle operations from `src/main.rs`
(`is_running`, `cmd_start`, `cmd_status`, `cmd_stop`) over an explicit
per-target disk state and a process-liveness oracle.
-/

namespace Mcwrap

/-! ### Definitions: log sanitizer (`filter_for_log`, src/pty.rs lines 279-333) -/

/-- After the prompt marker `"> "` is skipped the source also skips one
immediately following newline (`if i < data.len() && data[i] == b'\n' { i += 1; }`). -/
def skipNewline (l : List Nat) : List Nat :=
  if l.head? = some 10 then l.tail else l

/-- Inner scan of the CSI branch (`while i < data.len() { let c = data[i]; i += 1;
if (0x40..=0x7E).contains(&c) { ... break } }`): consume bytes until the first
one in `0x40..=0x7E`; return the consumed body, the terminator and the rest,
or `none` when the chunk ends before a terminator is found. -/
def scanCSI : List Nat → Option (List Nat × Nat × List Nat)
  | [] => none
  | c :: rest =>
    if 64 ≤ c ∧ c ≤ 126 then some ([], c, rest)
    else
      match scanCSI rest with
      | none => none
      | some (b, t, r) => some (c :: b, t, r)

/-- Main loop of `filter_for_log`.  `ls` is the `line_start` local, `acc` holds
the bytes of `result` in reverse; branches follow the source's `if` chain:
prompt-marker skip, CSI handling (keep the whole slice `data[start..i]` when
the terminator is `b'm'`), unconditional CR drop, newline collapse guarded by
`!result.is_empty() && result.last() != Some(&b'\n')`, default pass-through. -/
def goFilter (data : List Nat) (ls : Bool) (acc : List Nat) : List Nat :=
  match data with
  | [] => acc.reverse
  | d :: rest =>
    if ls = true ∧ d = 62 ∧ rest.head? = some 32 then
      goFilter (skipNewline rest.tail) ls acc
    else if d = 27 ∧ rest.head? = some 91 then
      match hs : scanCSI rest.tail with
      | some (b, t, r) =>
        if t = 109 then
          goFilter r false (List.reverseAux (27 :: 91 :: (b ++ [t])) acc)
        else
          goFilter r false acc
      | none => acc.reverse
    else if d = 13 then
      goFilter rest ls acc
    else if d = 10 then
      goFilter rest true (if acc = [] ∨ acc.head? = some 10 then acc else 10 :: acc)
    else
      goFilter rest false (d :: acc)
termination_by data.length
decreasing_by
  · have h1 : (skipNewline rest.tail).length ≤ rest.tail.length := by
      unfold skipNewline
      split
      · cases rest.tail <;> simp
      · exact Nat.le_refl _
    have h2 : rest.tail.length ≤ rest.length := by cases rest <;> simp
    simp only [List.length_cons]
    omega
  · have key : ∀ (l b : List Nat) (t : Nat) (r : List Nat),
        scanCSI l = some (b, t, r) → r.length < l.length := by
      intro l
      induction l with
      | nil => intro b t r h; simp [scanCSI] at h
      | cons c rl ih =>
        intro b t r h
        unfold scanCSI at h
        split at h
        · simp at h
          obtain ⟨_, _, hr⟩ := h
          subst hr
          simp
        · cases hsc : scanCSI rl with
          | none => rw [hsc] at h; simp at h
          | some x =>
            obtain ⟨b1, t1, r1⟩ := x
            rw [hsc] at h
            simp at h
            obtain ⟨_, _, hr⟩ := h
            subst hr
            exact Nat.lt_trans (ih b1 t1 r1 hsc) (by simp)
    have h1 := key _ _ _ _ hs
    have h2 : rest.tail.length ≤ rest.length := by cases rest <;> simp
    simp only [List.length_cons]
    omega
  · have key : ∀ (l b : List Nat) (t : Nat) (r : List Nat),
        scanCSI l = some (b, t, r) → r.length < l.length := by
      intro l
      induction l with
      | nil => intro b t r h; simp [scanCSI] at h
      | cons c rl ih =>
        intro b t r h
        unfold scanCSI at h
        split at h
        · simp at h
          obtain ⟨_, _, hr⟩ := h
          subst hr
          simp
        · cases hsc : scanCSI rl with
          | none => rw [hsc] at h; simp at h
          | some x =>
            obtain ⟨b1, t1, r1⟩ := x
            rw [hsc] at h
            simp at h
            obtain ⟨_, _, hr⟩ := h
            subst hr
            exact Nat.lt_trans (ih b1 t1 r1 hsc) (by simp)
    have h1 := key _ _ _ _ hs
    have h2 : rest.tail.length ≤ rest.length := by cases rest <;> simp
    simp only [List.length_cons]
    omega
  · simp
  · simp
  · simp

/-- Shallow embedding of `filter_for_log` (src/pty.rs): the local
`line_start` starts as `true` and `result` starts empty on every call. -/
def filter_for_log (data : List Nat) : List Nat :=
  goFilter data true []

/-- Newline-run collapsing.  `collapseFrom atNl l` keeps every byte of `l`
except that a newline is dropped whenever `atNl` holds (previous emitted byte
was a newline, or — for the code's behavior — nothing was emitted yet).
`collapseFrom false` is the spec claim's normalization (every maximal newline
run becomes one newline); `collapseFrom true` additionally deletes a leading
newline run, which is what the code's `!result.is_empty()` guard produces. -/
def collapseFrom : Bool → List Nat → List Nat
  | _, [] => []
  | atNl, c :: rest =>
    if c = 10 then
      if atNl then collapseFrom true rest else 10 :: collapseFrom true rest
    else c :: collapseFrom false rest

/-- Claim C3's stated normalization, taken from the spec's words: the input
with every carriage return removed and every maximal run of newlines replaced
by a single newline. -/
def specCollapse (l : List Nat) : List Nat :=
  collapseFrom false (l.filter (· ≠ 13))

/-- No occurrence of the prompt marker `"> "` at a line-start position, where
line starts are tracked exactly as the sanitizer loop tracks them on
escape-free input: a carriage return leaves the flag alone, a newline sets it,
any other byte clears it. -/
def noPromptAux : Bool → List Nat → Bool
  | _, [] => true
  | ls, d :: rest =>
    if ls = true ∧ d = 62 ∧ rest.head? = some 32 then false
    else if d = 13 then noPromptAux ls rest
    else if d = 10 then noPromptAux true rest
    else noPromptAux false rest

/-! ### Definitions: session lifecycle (src/main.rs)

The per-target disk state is made explicit.  `live` abstracts the
`kill(pid, None).is_ok()` liveness probe; for `cmd_stop`, which probes
repeatedly over time, the oracle also takes a time index (0 = the probe in
`is_running` at entry, `i + 1` = the i-th of the 60 one-second polls,
61 = the moment the SIGKILL is delivered). -/

/-- The `ServerState` record persisted as `state.json` (src/main.rs lines
95-101). -/
structure ServerState where
  pid : Int
  pty_master : Option String
  started_at : Nat
  server_dir : String
deriving DecidableEq

/-- Content of the state file: absent, present but not valid JSON for
`ServerState` (the raw text is kept so "unchanged" is meaningful), or a
parsed record. -/
inductive StateFile where
  | absent
  | invalid (raw : String)
  | valid (s : ServerState)
deriving DecidableEq

/-- The per-target storage directory `~/.mcwrap/<hash>`: the state file plus
whatever other files live there (console.log, pty.sock, input FIFO). -/
structure WrapDir where
  stateFile : StateFile
  otherFiles : List String
deriving DecidableEq

/-- Disk state for one target: its wrap directory, or `none` when the whole
directory is absent (as after `fs::remove_dir_all`). -/
structure Disk where
  wrapDir : Option WrapDir
deriving DecidableEq

/-- Embedding of `is_running` (src/main.rs lines 142-153): a file that cannot
be opened or parsed yields `None` with the disk untouched; a parsed record
with a dead pid yields `None` after `remove_dir_all(wrap_dir)`; a parsed
record with a live pid is returned with the disk untouched. -/
def is_running (live : Int → Bool) (d : Disk) : Option ServerState × Disk :=
  match d.wrapDir with
  | none => (none, d)
  | some wd =>
    match wd.stateFile with
    | .absent => (none, d)
    | .invalid _ => (none, d)
    | .valid s =>
      if live s.pid then (some s, d)
      else (none, ⟨none⟩)

/-- What `cmd_status` prints, reduced to its observable content. -/
inductive StatusReport where
  | running (pid : Int) (ptyMode : Bool)
  | notRunning
deriving DecidableEq

/-- Embedding of `cmd_status` (src/main.rs lines 567-587). -/
def cmd_status (live : Int → Bool) (d : Disk) : StatusReport × Disk :=
  match is_running live d with
  | (some s, d1) => (.running s.pid s.pty_master.isSome, d1)
  | (none, d1) => (.notRunning, d1)

/-- Result of `cmd_start`, reduced to its observable content.
`alreadyRunning` is the `bail!("Server is already running")` branch. -/
inductive StartOutcome where
  | started (pid : Int)
  | alreadyRunning
  | noJar
  | spawnFailed
deriving DecidableEq

/-- Environment of a start request: the liveness oracle and the outcomes of
the external steps (`find_jar`, `pty::spawn_with_pty`, the clock, the target
path and the socket path derived from it). -/
structure StartEnv where
  live : Int → Bool
  jarFound : Bool
  spawnOk : Bool
  spawnPid : Int
  now : Nat
  serverDir : String
  sockPath : String

/-- Embedding of `cmd_start` in PTY mode (src/main.rs lines 196-235 and
318-340): refuse when `is_running` returns a record; otherwise
`remove_dir_all` the wrap directory, recreate it empty, locate the jar, spawn,
and write a fresh `state.json` whose `pty_master` is the socket path. -/
def cmd_start (env : StartEnv) (d : Disk) : StartOutcome × Disk :=
  match is_running env.live d with
  | (some _, d1) => (.alreadyRunning, d1)
  | (none, _) =>
    let d1 : Disk := ⟨some ⟨.absent, []⟩⟩
    if env.jarFound then
      if env.spawnOk then
        (.started env.spawnPid,
          ⟨some ⟨.valid ⟨env.spawnPid, some env.sockPath, env.now, env.serverDir⟩, []⟩⟩)
      else (.spawnFailed, d1)
    else (.noJar, d1)

/-- Result of `cmd_stop`, reduced to its observable content.  `killFailed` is
the branch where `kill(pid, SIGKILL)` returns `Err` and the `?` operator
returns it before the final `remove_dir_all`. -/
inductive StopOutcome where
  | notRunning
  | sendFailed
  | graceful
  | forceKilled
  | killFailed
deriving DecidableEq

/-- Embedding of `cmd_stop` (src/main.rs lines 590-617).  `liveAt t pid`
answers the liveness probe at time `t` (0 at entry, `i + 1` at the i-th poll,
61 at the SIGKILL); `sendOk` abstracts the `cmd_send(&server_dir, "stop")`
call, whose failure is propagated by `?`.  The source loop returns at the
first dead poll; whether any of the 60 polls saw the pid dead is all that the
outcome and final disk depend on. -/
def cmd_stop (liveAt : Nat → Int → Bool) (sendOk : Bool) (d : Disk) :
    StopOutcome × Disk :=
  match is_running (liveAt 0) d with
  | (none, d1) => (.notRunning, d1)
  | (some s, d1) =>
    if sendOk then
      if (List.range 60).all (fun i => liveAt (i + 1) s.pid) then
        if liveAt 61 s.pid then (.forceKilled, ⟨none⟩)
        else (.killFailed, d1)
      else (.graceful, ⟨none⟩)
    else (.sendFailed, d1)

/-! ### Theorems: sanitizer step lemmas -/

theorem skipNewline_length_le (l : List Nat) : (skipNewline l).length ≤ l.length := by
  unfold skipNewline
  split
  · cases l <;> simp
  · exact Nat.le_refl _

theorem scanCSI_length_lt : ∀ {l b t r}, scanCSI l = some (b, t, r) → r.length < l.length := by
  intro l
  induction l with
  | nil => intro b t r h; simp [scanCSI] at h
  | cons c rest ih =>
    intro b t r h
    unfold scanCSI at h
    split at h
    · simp at h
      obtain ⟨_, _, hr⟩ := h
      subst hr
      simp
    · cases hs : scanCSI rest with
      | none => rw [hs] at h; simp at h
      | some x =>
        obtain ⟨b1, t1, r1⟩ := x
        rw [hs] at h
        simp at h
        obtain ⟨_, _, hr⟩ := h
        subst hr
        exact Nat.lt_trans (ih hs) (by simp)

theorem goFilter_nil (ls : Bool) (acc : List Nat) : goFilter [] ls acc = acc.reverse := by
  rw [goFilter]

theorem goFilter_prompt (rest acc : List Nat) :
    goFilter (62 :: 32 :: rest) true acc = goFilter (skipNewline rest) true acc := by
  rw [goFilter]
  simp

theorem goFilter_csi {rest : List Nat} {b : List Nat} {t : Nat} {r : List Nat}
    (h : scanCSI rest = some (b, t, r)) (ls : Bool) (acc : List Nat) :
    goFilter (27 :: 91 :: rest) ls acc =
      if t = 109 then goFilter r false (List.reverseAux (27 :: 91 :: (b ++ [t])) acc)
      else goFilter r false acc := by
  rw [goFilter]
  simp only [List.head?_cons, List.tail_cons]
  rw [if_neg (by simp)]
  rw [if_pos (by simp)]
  split
  · rename_i b1 t1 r1 hs
    rw [h] at hs
    simp at hs
    obtain ⟨hb, ht, hr⟩ := hs
    subst hb; subst ht; subst hr
    rfl
  · rename_i hs
    rw [h] at hs
    simp at hs

theorem goFilter_csi_none {rest : List Nat} (h : scanCSI rest = none) (ls : Bool)
    (acc : List Nat) : goFilter (27 :: 91 :: rest) ls acc = acc.reverse := by
  rw [goFilter]
  simp only [List.head?_cons, List.tail_cons]
  rw [if_neg (by simp)]
  rw [if_pos (by simp)]
  split
  · rename_i b1 t1 r1 hs
    rw [h] at hs
    simp at hs
  · rfl

theorem goFilter_cr (rest : List Nat) (ls : Bool) (acc : List Nat) :
    goFilter (13 :: rest) ls acc = goFilter rest ls acc := by
  rw [goFilter]
  simp

theorem goFilter_nl (rest : List Nat) (ls : Bool) (acc : List Nat) :
    goFilter (10 :: rest) ls acc =
      goFilter rest true (if acc = [] ∨ acc.head? = some 10 then acc else 10 :: acc) := by
  rw [goFilter]
  simp

theorem goFilter_other {d : Nat} {rest : List Nat} {ls : Bool}
    (h1 : ¬(ls = true ∧ d = 62 ∧ rest.head? = some 32))
    (h2 : ¬(d = 27 ∧ rest.head? = some 91))
    (h3 : d ≠ 13) (h4 : d ≠ 10) (acc : List Nat) :
    goFilter (d :: rest) ls acc = goFilter rest false (d :: acc) := by
  rw [goFilter]
  rw [if_neg h1, if_neg h2, if_neg h3, if_neg h4]

theorem mem_skipNewline {a : Nat} {l : List Nat} (h : a ∈ skipNewline l) : a ∈ l := by
  unfold skipNewline at h
  split at h
  · exact List.mem_of_mem_tail h
  · exact h

/-! ### Theorems: sanitizer structure lemmas -/

/-- On escape-free, prompt-free input the sanitizer loop is exactly
CR-removal followed by newline collapsing relative to the tail of the output
already accumulated. -/
theorem goFilter_no_esc (l : List Nat) : ∀ (ls : Bool) (acc : List Nat), 27 ∉ l →
    noPromptAux ls l = true →
    goFilter l ls acc =
      acc.reverse ++ collapseFrom (decide (acc = [] ∨ acc.head? = some 10))
        (l.filter (· ≠ 13)) := by
  induction l with
  | nil => intro ls acc _ _; simp [goFilter_nil, collapseFrom]
  | cons d rest ih =>
    intro ls acc h27 hp
    have h27r : 27 ∉ rest := fun h => h27 (List.mem_cons_of_mem _ h)
    have hd27 : d ≠ 27 := fun h => h27 (by simp [h])
    by_cases hpg : ls = true ∧ d = 62 ∧ rest.head? = some 32
    · exfalso
      unfold noPromptAux at hp
      rw [if_pos hpg] at hp
      simp at hp
    · by_cases h13 : d = 13
      · subst h13
        rw [goFilter_cr]
        have hp2 : noPromptAux ls rest = true := by
          unfold noPromptAux at hp
          rw [if_neg hpg, if_pos rfl] at hp
          exact hp
        rw [ih ls acc h27r hp2]
        simp
      · by_cases h10 : d = 10
        · subst h10
          rw [goFilter_nl]
          have hp2 : noPromptAux true rest = true := by
            unfold noPromptAux at hp
            rw [if_neg hpg, if_neg (by simp), if_pos rfl] at hp
            exact hp
          by_cases hc : acc = [] ∨ acc.head? = some 10
          · rw [if_pos hc]
            rw [ih true acc h27r hp2]
            have hdec : (decide (acc = [] ∨ acc.head? = some 10)) = true := by
              simpa using hc
            simp [hdec, collapseFrom]
          · rw [if_neg hc]
            rw [ih true (10 :: acc) h27r hp2]
            have h1 : (decide ((10 : Nat) :: acc = [] ∨ ((10 : Nat) :: acc).head? = some 10)) = true := by
              simp
            have h2 : (decide (acc = [] ∨ acc.head? = some 10)) = false := by
              simpa using hc
            simp [h1, h2, collapseFrom]
        · have hcsi : ¬(d = 27 ∧ rest.head? = some 91) := fun h => hd27 h.1
          rw [goFilter_other hpg hcsi h13 h10]
          have hp2 : noPromptAux false rest = true := by
            unfold noPromptAux at hp
            rw [if_neg hpg, if_neg h13, if_neg h10] at hp
            exact hp
          rw [ih false (d :: acc) h27r hp2]
          have h1 : (decide (d :: acc = [] ∨ (d :: acc).head? = some 10)) = false := by
            simp [h10]
          simp [h1, h13, h10, collapseFrom]

/-- On escape-free input (no prompt-marker restriction) the sanitizer never
emits a carriage return. -/
theorem goFilter_no_cr : ∀ (n : Nat) (l : List Nat), l.length ≤ n →
    ∀ (ls : Bool) (acc : List Nat), 27 ∉ l → 13 ∉ acc → 13 ∉ goFilter l ls acc := by
  intro n
  induction n with
  | zero =>
    intro l hl ls acc h27 hacc
    cases l with
    | nil => rw [goFilter_nil]; simpa using hacc
    | cons d rest => simp at hl
  | succ n ih =>
    intro l hl ls acc h27 hacc
    cases l with
    | nil => rw [goFilter_nil]; simpa using hacc
    | cons d rest =>
      have h27r : 27 ∉ rest := fun h => h27 (List.mem_cons_of_mem _ h)
      have hd27 : d ≠ 27 := fun h => h27 (by simp [h])
      have hlen : rest.length ≤ n := by
        simp only [List.length_cons] at hl
        omega
      by_cases hpg : ls = true ∧ d = 62 ∧ rest.head? = some 32
      · obtain ⟨hls, hd, hh⟩ := hpg
        have hrest : rest = 32 :: rest.tail := by
          cases rest with
          | nil => simp at hh
          | cons a r => simp at hh; simp [hh]
        subst hd
        rw [hls, hrest, goFilter_prompt]
        have h1 : (skipNewline rest.tail).length ≤ n := by
          have := skipNewline_length_le rest.tail
          have h2 : rest.tail.length ≤ rest.length := by cases rest <;> simp
          omega
        refine ih (skipNewline rest.tail) h1 true acc ?_ hacc
        intro hmem
        have : (27 : Nat) ∈ rest.tail := mem_skipNewline hmem
        exact h27r (List.mem_of_mem_tail this)
      · by_cases h13 : d = 13
        · subst h13
          rw [goFilter_cr]
          exact ih rest hlen ls acc h27r hacc
        · by_cases h10 : d = 10
          · subst h10
            rw [goFilter_nl]
            refine ih rest hlen true _ h27r ?_
            split
            · exact hacc
            · intro h
              rcases List.mem_cons.mp h with h | h
              · exact absurd h.symm (by decide)
              · exact hacc h
          · have hcsi : ¬(d = 27 ∧ rest.head? = some 91) := fun h => hd27 h.1
            rw [goFilter_other hpg hcsi h13 h10]
            refine ih rest hlen false (d :: acc) h27r ?_
            intro h
            rcases List.mem_cons.mp h with h | h
            · exact h13 h.symm
            · exact hacc h

/-- The output buffer only ever grows: whatever the loop produces extends the
already-accumulated output. -/
theorem goFilter_acc_extends : ∀ (n : Nat) (l : List Nat), l.length ≤ n →
    ∀ (ls : Bool) (acc : List Nat), ∃ w, goFilter l ls acc = acc.reverse ++ w := by
  intro n
  induction n with
  | zero =>
    intro l hl ls acc
    cases l with
    | nil => exact ⟨[], by simp [goFilter_nil]⟩
    | cons d rest => simp at hl
  | succ n ih =>
    intro l hl ls acc
    cases l with
    | nil => exact ⟨[], by simp [goFilter_nil]⟩
    | cons d rest =>
      have hlen : rest.length ≤ n := by
        simp only [List.length_cons] at hl
        omega
      by_cases hpg : ls = true ∧ d = 62 ∧ rest.head? = some 32
      · obtain ⟨hls, hd, hh⟩ := hpg
        have hrest : rest = 32 :: rest.tail := by
          cases rest with
          | nil => simp at hh
          | cons a r => simp at hh; simp [hh]
        subst hd
        rw [hls, hrest, goFilter_prompt]
        have h1 : (skipNewline rest.tail).length ≤ n := by
          have := skipNewline_length_le rest.tail
          have h2 : rest.tail.length ≤ rest.length := by cases rest <;> simp
          omega
        exact ih (skipNewline rest.tail) h1 true acc
      · by_cases hcsi : d = 27 ∧ rest.head? = some 91
        · obtain ⟨hd, hh⟩ := hcsi
          have hrest : rest = 91 :: rest.tail := by
            cases rest with
            | nil => simp at hh
            | cons a r => simp at hh; simp [hh]
          subst hd
          rw [hrest]
          cases hs : scanCSI rest.tail with
          | none => exact ⟨[], by rw [goFilter_csi_none hs]; simp⟩
          | some x =>
            obtain ⟨b, t, r⟩ := x
            rw [goFilter_csi hs]
            have hr : r.length ≤ n := by
              have := scanCSI_length_lt hs
              have h2 : rest.tail.length ≤ rest.length := by cases rest <;> simp
              omega
            by_cases ht : t = 109
            · rw [if_pos ht]
              obtain ⟨w, hw⟩ := ih r hr false (List.reverseAux (27 :: 91 :: (b ++ [t])) acc)
              refine ⟨(27 :: 91 :: (b ++ [t])) ++ w, ?_⟩
              rw [hw]
              simp [List.reverseAux_eq]
            · rw [if_neg ht]
              exact ih r hr false acc
        · by_cases h13 : d = 13
          · subst h13
            rw [goFilter_cr]
            exact ih rest hlen ls acc
          · by_cases h10 : d = 10
            · subst h10
              rw [goFilter_nl]
              by_cases hc : acc = [] ∨ acc.head? = some 10
              · rw [if_pos hc]
                exact ih rest hlen true acc
              · rw [if_neg hc]
                obtain ⟨w, hw⟩ := ih rest hlen true (10 :: acc)
                exact ⟨10 :: w, by rw [hw]; simp⟩
            · rw [goFilter_other hpg hcsi h13 h10]
              obtain ⟨w, hw⟩ := ih rest hlen false (d :: acc)
              exact ⟨d :: w, by rw [hw]; simp⟩

/-- For a body of non-terminator bytes followed by a terminator, the CSI scan
finds exactly that terminator. -/
theorem scanCSI_body : ∀ (body : List Nat) (t : Nat) (v : List Nat),
    (∀ x ∈ body, ¬(64 ≤ x ∧ x ≤ 126)) → 64 ≤ t ∧ t ≤ 126 →
    scanCSI (body ++ t :: v) = some (body, t, v) := by
  intro body
  induction body with
  | nil =>
    intro t v _ ht
    simp only [List.nil_append]
    unfold scanCSI
    rw [if_pos ht]
  | cons c rest ih =>
    intro t v hb ht
    have hc : ¬(64 ≤ c ∧ c ≤ 126) := hb c (by simp)
    have hstep : scanCSI ((c :: rest) ++ t :: v) = scanCSI (c :: (rest ++ t :: v)) := by simp
    rw [hstep]
    unfold scanCSI
    rw [if_neg hc, ih t v (fun x hx => hb x (by simp [hx])) ht]

/-! ### Claim theorems -/

/-- Claim C1, counterexample: `filter_for_log` takes no carried state, so
sanitizing two chunks in two calls differs from sanitizing their
concatenation and a chunk that begins with the prompt marker drops it even
though the previous chunk (`[97]`, i.e. `"a"`) did not end with a newline. -/
theorem sanitizer_not_resumable :
    filter_for_log [97] ++ filter_for_log [62, 32, 98] ≠
      filter_for_log ([97] ++ [62, 32, 98]) ∧
    filter_for_log [62, 32, 98] = [98] := by
  constructor
  · simp [filter_for_log, goFilter, skipNewline, scanCSI]
  · simp [filter_for_log, goFilter, skipNewline, scanCSI]

/-- Claim C1, amended: the sanitizer is chunk-local, not resumable —
`line_start` is a local reset to `true` on every call, so a chunk whose first
bytes are the prompt marker always has the marker (and one following newline)
dropped, regardless of how the previous chunk ended. -/
theorem sanitizer_chunk_local (rest : List Nat) :
    filter_for_log (62 :: 32 :: rest) =
      filter_for_log (if rest.head? = some 10 then rest.tail else rest) := by
  unfold filter_for_log
  rw [goFilter_prompt]
  rfl

/-- Claim C2, counterexample: a child that survives all 60 polls but is gone
by the time the SIGKILL is delivered makes `kill(..., SIGKILL)?` return the
error before the final `remove_dir_all`, so the Session Record storage is not
removed — removal after the ceiling is conditional on the signal
succeeding. -/
theorem stop_kill_error_keeps_record :
    cmd_stop (fun t _ => decide (t ≤ 60)) true
        ⟨some ⟨.valid ⟨5, some "sock", 0, "dir"⟩, []⟩⟩ =
      (.killFailed, ⟨some ⟨.valid ⟨5, some "sock", 0, "dir"⟩, []⟩⟩) ∧
    (⟨some ⟨.valid ⟨5, some "sock", 0, "dir"⟩, []⟩⟩ : Disk) ≠ ⟨none⟩ := by
  constructor
  · decide
  · decide

/-- Claim C2, amended: stopping a running session whose child exits within
the 60-poll ceiling removes the record and reports graceful success; when all
60 polls see the child alive, SIGKILL is issued to the recorded pid and the
record is removed if the signal is delivered, while a pid already gone at
kill time makes the operation propagate the kill error with the record left
in place. -/
theorem stop_spec (liveAt : Nat → Int → Bool) (wd : WrapDir) (s : ServerState)
    (hfile : wd.stateFile = .valid s) (hentry : liveAt 0 s.pid = true) :
    ((∃ i, i < 60 ∧ liveAt (i + 1) s.pid = false) →
      cmd_stop liveAt true ⟨some wd⟩ = (.graceful, ⟨none⟩)) ∧
    ((∀ i, i < 60 → liveAt (i + 1) s.pid = true) →
      cmd_stop liveAt true ⟨some wd⟩ =
        if liveAt 61 s.pid then (.forceKilled, ⟨none⟩)
        else (.killFailed, ⟨some wd⟩)) := by
  have hrun : is_running (liveAt 0) ⟨some wd⟩ = (some s, ⟨some wd⟩) := by
    unfold is_running
    simp [hfile, hentry]
  constructor
  · rintro ⟨i, hi, hdead⟩
    have hall : ((List.range 60).all (fun j => liveAt (j + 1) s.pid)) = false := by
      cases hA : (List.range 60).all (fun j => liveAt (j + 1) s.pid) with
      | false => rfl
      | true =>
        exfalso
        rw [List.all_eq_true] at hA
        have := hA i (List.mem_range.mpr hi)
        rw [hdead] at this
        exact absurd this (by decide)
    unfold cmd_stop
    rw [hrun]
    simp [hall]
  · intro hall
    have hA : ((List.range 60).all (fun j => liveAt (j + 1) s.pid)) = true := by
      rw [List.all_eq_true]
      intro j hj
      exact hall j (List.mem_range.mp hj)
    unfold cmd_stop
    rw [hrun]
    simp [hA]

/-- Witness for the amended C2 theorem: concrete session whose pid is live at
entry and dead at the first poll — graceful stop, record removed. -/
theorem stop_spec_witness :
    cmd_stop (fun t _ => decide (t = 0)) true
        ⟨some ⟨.valid ⟨5, none, 0, "dir"⟩, []⟩⟩ = (.graceful, ⟨none⟩) :=
  (stop_spec (fun t _ => decide (t = 0)) ⟨.valid ⟨5, none, 0, "dir"⟩, []⟩
      ⟨5, none, 0, "dir"⟩ rfl (by decide)).1 ⟨0, by decide, by decide⟩

/-- Claim C3, counterexample: the input `[10]` (a single newline) has no
escape byte and no prompt marker, yet the sanitizer returns `[]` where the
claim's normalization (CRs removed, each maximal newline run replaced by one
newline) returns `[10]` — a newline run at the very start of the output is
deleted, not collapsed to one. -/
theorem collapse_claim_fails_on_leading_newline :
    27 ∉ ([10] : List Nat) ∧ noPromptAux true [10] = true ∧
    filter_for_log [10] ≠ specCollapse [10] := by
  refine ⟨by decide, by decide, ?_⟩
  simp [filter_for_log, goFilter, specCollapse, collapseFrom]

/-- Claim C3, amended: on input with no escape byte and no prompt marker at a
line start, the sanitizer output is the input with every CR removed and every
maximal newline run collapsed to a single newline, except that a run of
newlines before the first emitted byte is removed entirely. -/
theorem filter_collapses_escape_free (data : List Nat) (h27 : 27 ∉ data)
    (hp : noPromptAux true data = true) :
    filter_for_log data = collapseFrom true (data.filter (· ≠ 13)) := by
  unfold filter_for_log
  rw [goFilter_no_esc data true [] h27 hp]
  simp

/-- Witness for the amended C3 theorem at the input `"a\r\n\nb"`. -/
theorem filter_collapses_escape_free_witness :
    filter_for_log [97, 13, 10, 10, 98] =
      collapseFrom true ([97, 13, 10, 10, 98].filter (· ≠ 13)) :=
  filter_collapses_escape_free [97, 13, 10, 10, 98] (by decide) (by decide)

/-- Claim C4: a CSI sequence fully contained in the chunk (ESC `[`, a body of
bytes outside the terminator range 0x40-0x7E, then a terminator in that
range) contributes, from any sanitizer state, exactly its own bytes to the
output when the terminator is `m` (0x6D) and nothing at all otherwise; when
kept, the whole sequence appears contiguously in the final output. -/
theorem csi_kept_iff_graphic (body : List Nat) (t : Nat) (v : List Nat)
    (hb : ∀ x ∈ body, ¬(64 ≤ x ∧ x ≤ 126)) (ht : 64 ≤ t ∧ t ≤ 126) :
    (∀ (ls : Bool) (acc : List Nat),
      goFilter (27 :: 91 :: (body ++ t :: v)) ls acc =
        if t = 109 then
          goFilter v false (List.reverseAux (27 :: 91 :: (body ++ [t])) acc)
        else goFilter v false acc) ∧
    (t = 109 → ∃ w, filter_for_log (27 :: 91 :: (body ++ t :: v)) =
      (27 :: 91 :: (body ++ [t])) ++ w) := by
  have hscan := scanCSI_body body t v hb ht
  constructor
  · intro ls acc
    exact goFilter_csi hscan ls acc
  · intro ht109
    subst ht109
    unfold filter_for_log
    rw [goFilter_csi hscan true []]
    rw [if_pos rfl]
    obtain ⟨w, hw⟩ := goFilter_acc_extends v.length v le_rfl false
      (List.reverseAux (27 :: 91 :: (body ++ [109])) [])
    refine ⟨w, ?_⟩
    rw [hw]
    simp [List.reverseAux_eq]

/-- Witness for C4: the SGR sequence `ESC [ 3 1 m` survives verbatim; the
erase sequence `ESC [ 2 J` vanishes completely. -/
theorem csi_kept_iff_graphic_witness :
    filter_for_log [27, 91, 51, 49, 109] = [27, 91, 51, 49, 109] ∧
    filter_for_log [27, 91, 50, 74] = [] := by
  constructor
  · have h := (csi_kept_iff_graphic [51, 49] 109 [] (by decide) (by decide)).1 true []
    simpa [filter_for_log, goFilter_nil, List.reverseAux] using h
  · have h := (csi_kept_iff_graphic [50] 74 [] (by decide) (by decide)).1 true []
    simpa [filter_for_log, goFilter_nil] using h

/-- Claim C5, counterexample: a carriage return inside a kept
graphic-rendition sequence (`ESC [ CR m`) is copied to the output with the
sequence, so the output is not CR-free for every chunk. -/
theorem cr_survives_inside_sgr :
    (13 : Nat) ∈ filter_for_log [27, 91, 13, 109] ∧
    filter_for_log [27, 91, 13, 109] = [27, 91, 13, 109] := by
  constructor
  · simp [filter_for_log, goFilter, scanCSI]
  · simp [filter_for_log, goFilter, scanCSI]

/-- Claim C5, amended: every carriage return encountered outside an escape
sequence is dropped; in particular on any chunk containing no escape byte the
output contains no carriage return. -/
theorem no_cr_without_escape (data : List Nat) (h27 : 27 ∉ data) :
    13 ∉ filter_for_log data :=
  goFilter_no_cr data.length data le_rfl true [] h27 (by simp)

/-- Witness for the amended C5 theorem at the input `"a\r\n"`. -/
theorem no_cr_without_escape_witness : 13 ∉ filter_for_log [97, 13, 10] :=
  no_cr_without_escape [97, 13, 10] (by decide)

/-- Claim C6: a start request while the stored record parses and its pid is
live is refused with the already-running error, and the disk state for the
target — record file and every other stored file — is exactly what it was. -/
theorem start_refused_when_running (env : StartEnv) (wd : WrapDir) (s : ServerState)
    (hfile : wd.stateFile = .valid s) (hlive : env.live s.pid = true) :
    cmd_start env ⟨some wd⟩ = (.alreadyRunning, ⟨some wd⟩) := by
  unfold cmd_start is_running
  simp [hfile, hlive]

/-- Witness for C6 on a concrete live record. -/
theorem start_refused_when_running_witness :
    cmd_start ⟨fun _ => true, true, true, 7, 0, "dir", "sock"⟩
        ⟨some ⟨.valid ⟨5, some "sock", 0, "dir"⟩, ["console.log"]⟩⟩ =
      (.alreadyRunning, ⟨some ⟨.valid ⟨5, some "sock", 0, "dir"⟩, ["console.log"]⟩⟩) :=
  start_refused_when_running ⟨fun _ => true, true, true, 7, 0, "dir", "sock"⟩
    ⟨.valid ⟨5, some "sock", 0, "dir"⟩, ["console.log"]⟩ ⟨5, some "sock", 0, "dir"⟩ rfl rfl

/-- Claim C7: a start request finding a record whose pid is dead behaves
exactly as if no session storage existed at all (the stale directory is
removed wholesale before anything new is created), and when the jar is found
and the spawn succeeds the start completes with a fresh record. -/
theorem start_reclaims_stale (env : StartEnv) (wd : WrapDir) (s : ServerState)
    (hfile : wd.stateFile = .valid s) (hdead : env.live s.pid = false) :
    cmd_start env ⟨some wd⟩ = cmd_start env ⟨none⟩ ∧
    (env.jarFound = true → env.spawnOk = true →
      cmd_start env ⟨some wd⟩ =
        (.started env.spawnPid,
          ⟨some ⟨.valid ⟨env.spawnPid, some env.sockPath, env.now, env.serverDir⟩, []⟩⟩)) := by
  have h1 : is_running env.live ⟨some wd⟩ = (none, ⟨none⟩) := by
    unfold is_running
    simp [hfile, hdead]
  have h2 : is_running env.live ⟨none⟩ = (none, ⟨none⟩) := rfl
  constructor
  · unfold cmd_start
    rw [h1, h2]
  · intro hj hso
    unfold cmd_start
    rw [h1]
    simp [hj, hso]

/-- Witness for C7: a stale record (dead pid 5, leftover log file) is
replaced by a fresh record for the new pid 7 with no trace of the old
storage. -/
theorem start_reclaims_stale_witness :
    cmd_start ⟨fun _ => false, true, true, 7, 3, "dir", "sock"⟩
        ⟨some ⟨.valid ⟨5, some "old", 1, "dir"⟩, ["console.log"]⟩⟩ =
      (.started 7, ⟨some ⟨.valid ⟨7, some "sock", 3, "dir"⟩, []⟩⟩) :=
  (start_reclaims_stale ⟨fun _ => false, true, true, 7, 3, "dir", "sock"⟩
      ⟨.valid ⟨5, some "old", 1, "dir"⟩, ["console.log"]⟩
      ⟨5, some "old", 1, "dir"⟩ rfl rfl).2 rfl rfl

/-- Claim C8: when the loop is at a line start and the next two bytes are
`'>'` and `' '`, both are dropped, an immediately following newline is
dropped too, and processing continues with the state unchanged — the marker
bytes contribute nothing to the output. -/
theorem prompt_marker_dropped_at_line_start (rest acc : List Nat) :
    goFilter (62 :: 32 :: rest) true acc =
      goFilter (if rest.head? = some 10 then rest.tail else rest) true acc := by
  rw [goFilter_prompt]
  rfl

/-- Claim C9: for the shared liveness probe and the operations built on it,
an absent state file and an unparsable one are treated exactly like no
session (no record returned, disk untouched, status and stop behave as in the
absent state); a parsed record with a dead pid is also treated as no session
and its whole storage directory is removed as a side effect. -/
theorem liveness_probe_absent_invalid_stale (live : Int → Bool) (raw : String)
    (of : List String) (s : ServerState) (sendOk : Bool) (hdead : live s.pid = false) :
    is_running live ⟨none⟩ = (none, ⟨none⟩) ∧
    is_running live ⟨some ⟨.absent, of⟩⟩ = (none, ⟨some ⟨.absent, of⟩⟩) ∧
    is_running live ⟨some ⟨.invalid raw, of⟩⟩ = (none, ⟨some ⟨.invalid raw, of⟩⟩) ∧
    is_running live ⟨some ⟨.valid s, of⟩⟩ = (none, ⟨none⟩) ∧
    (cmd_status live ⟨some ⟨.absent, of⟩⟩).1 = (cmd_status live ⟨none⟩).1 ∧
    (cmd_status live ⟨some ⟨.invalid raw, of⟩⟩).1 = (cmd_status live ⟨none⟩).1 ∧
    cmd_status live ⟨some ⟨.valid s, of⟩⟩ = (.notRunning, ⟨none⟩) ∧
    (cmd_stop (fun _ => live) sendOk ⟨some ⟨.absent, of⟩⟩).1 = .notRunning ∧
    (cmd_stop (fun _ => live) sendOk ⟨some ⟨.invalid raw, of⟩⟩).1 = .notRunning ∧
    (cmd_stop (fun _ => live) sendOk ⟨some ⟨.valid s, of⟩⟩).1 = .notRunning := by
  simp [cmd_status, cmd_stop, is_running, hdead]

/-- Witness for C9 on a concrete dead record. -/
theorem liveness_probe_witness :
    is_running (fun _ => false) ⟨some ⟨.valid ⟨5, none, 0, "d"⟩, ["console.log"]⟩⟩ =
      (none, ⟨none⟩) :=
  (liveness_probe_absent_invalid_stale (fun _ => false) "x" ["console.log"]
      ⟨5, none, 0, "d"⟩ true rfl).2.2.2.1

/-- Claim C10: an escape byte not immediately followed by `'['` — including
one that ends the chunk — is handled by the default branch: passed through to
the output as an ordinary byte with the at-line-start state cleared. -/
theorem esc_without_bracket_passthrough (rest : List Nat) (ls : Bool) (acc : List Nat)
    (h : rest.head? ≠ some 91) :
    goFilter (27 :: rest) ls acc = goFilter rest false (27 :: acc) :=
  goFilter_other (by simp) (fun hc => h hc.2) (by decide) (by decide) acc

/-- Witness for C10: an escape byte as the last byte of the chunk. -/
theorem esc_without_bracket_witness :
    goFilter [27] true [] = goFilter [] false [27] :=
  esc_without_bracket_passthrough [] true [] (by decide)

end Mcwrap
